import Mathlib

/-!
Shallow embedding of the blackjack room server (src/server.js) and
verification of the specification claims about it.

Conventions of the embedding:
* JS numbers that are only ever card counts or scores are `Nat`;
  chip balances and bets (which can go negative / are compared to 0) are `Int`.
* The JS object `room.players` (string keys, insertion order) is an
  association list `List (String × Player)`.
* A JS `undefined` returned by `Array.prototype.pop` on an empty array is
  `Option.none`; a code path that would dereference such an `undefined`
  (and hence throw at runtime) is modelled by a function returning `none`.
* Timer handles stored on `room.timers` are modelled as booleans
  (armed / cleared); `clearInterval` / `clearTimeout` set the flag to false.
-/

namespace Blackjack

/-- A playing card exactly as built by createDeck: a suit symbol and a rank
string drawn from A,2..10,J,Q,K (server.js line 301). -/
structure Card where
  suit : String
  value : String
  deriving DecidableEq, Repr

/-- Decimal value of a digit sequence, accumulator style. -/
def digitsValue : List Char → Nat → Nat
  | [], acc => acc
  | c :: rest, acc => digitsValue rest (acc * 10 + (c.toNat - 48))

/-- The digit-prefix part of JS parseInt: the longest prefix of decimal
digits, or NaN (here `none`) when there is none. -/
def parseDigitsPrefix (cs : List Char) : Option Nat :=
  let ds := cs.takeWhile Char.isDigit
  if ds.isEmpty then none else some (digitsValue ds 0)

/-- JS parseInt(s, 10): skip leading whitespace, read an optional sign,
then the longest decimal-digit prefix; NaN (here `none`) when no digit
follows.  Used by the placeBet handler (server.js line 80). -/
def jsParseInt (s : String) : Option Int :=
  let cs := s.data.dropWhile (fun c => c = ' ' ∨ c = '\t' ∨ c = '\n' ∨ c = '\r')
  match cs with
  | '-' :: rest => (parseDigitsPrefix rest).map (fun n => -(n : Int))
  | '+' :: rest => (parseDigitsPrefix rest).map (fun n => (n : Int))
  | _ => (parseDigitsPrefix cs).map (fun n => (n : Int))

/-- The contribution of one card inside the accumulation loop of
calculateScore (server.js line 303): an Ace adds 11, a face card adds 10,
a numeric rank adds its parseInt value. -/
def cardPoints (c : Card) : Nat :=
  if c.value = "A" then 11
  else if c.value = "J" ∨ c.value = "Q" ∨ c.value = "K" then 10
  else (parseDigitsPrefix c.value.data).getD 0

/-- Number of Aces in a hand: the aceCount accumulated by the loop of
calculateScore (server.js line 303). -/
def aceCount (hand : List Card) : Nat :=
  (hand.filter (fun c => c.value = "A")).length

/-- The score accumulated by the first loop of calculateScore before any
Ace demotion: every Ace counted as 11 (server.js line 303). -/
def rawScore (hand : List Card) : Nat :=
  hand.foldl (fun s c => s + cardPoints c) 0

/-- The demotion loop of calculateScore (server.js line 303):
while score > 21 and an Ace still counted as 11 remains, subtract 10.
Structured as recursion on the remaining ace count. -/
def calculateScoreLoop : Nat → Nat → Nat
  | score, 0 => score
  | score, a + 1 => if 21 < score then calculateScoreLoop (score - 10) a else score

/-- calculateScore (server.js line 303): raw sum with Aces as 11, then the
demotion loop. -/
def calculateScore (hand : List Card) : Nat :=
  calculateScoreLoop (rawScore hand) (aceCount hand)

/-- dealCard (server.js line 302) is deck.pop(): it returns the last
element of the array (or JS undefined, here `none`, when the array is
empty) and removes it. -/
def dealCard (deck : List Card) : Option Card × List Card :=
  (deck.getLast?, deck.dropLast)

/-- Characterisation of the demotion loop: it performs some number `k` of
10-point demotions, never more than the available count `a`, it stops
either at or below 21 or after demoting everything, and every demotion it
performed was forced (the running total before it still exceeded 21). -/
theorem calculateScoreLoop_spec (a : Nat) : ∀ s : Nat,
    ∃ k, k ≤ a ∧ s = calculateScoreLoop s a + 10 * k ∧
      (calculateScoreLoop s a ≤ 21 ∨ k = a) ∧
      ∀ j, j < k → 21 + 10 * j < s := by
  induction a with
  | zero =>
    intro s
    exact ⟨0, Nat.le_refl 0, by simp [calculateScoreLoop], Or.inr rfl, by omega⟩
  | succ a ih =>
    intro s
    by_cases hs : 21 < s
    · obtain ⟨k, hk, heq, hstop, hforced⟩ := ih (s - 10)
      refine ⟨k + 1, by omega, ?_, ?_, ?_⟩
      · simp only [calculateScoreLoop, if_pos hs]
        omega
      · simp only [calculateScoreLoop, if_pos hs]
        rcases hstop with h | h
        · exact Or.inl h
        · exact Or.inr (by omega)
      · intro j hj
        cases j with
        | zero => omega
        | succ j' =>
          have := hforced j' (by omega)
          omega
    · refine ⟨0, Nat.zero_le _, ?_, ?_, by omega⟩
      · simp only [calculateScoreLoop, if_neg hs]
        omega
      · simp only [calculateScoreLoop, if_neg hs]
        omega

/-- A concrete Ace of spades. -/
def cardSA : Card := { suit := "♠", value := "A" }

/-- A concrete King of hearts. -/
def cardHK : Card := { suit := "♥", value := "K" }

/-- A concrete Ace of hearts. -/
def cardHA : Card := { suit := "♥", value := "A" }

/-- A concrete nine of diamonds. -/
def cardD9 : Card := { suit := "♦", value := "9" }

/-- C2: calculateScore sums ranks with face cards as 10 and Aces as 11,
then while the total exceeds 21 and an Ace counted as 11 remains it
demotes one Ace by 10.  It never counts an Ace as both 11 and 1 at once
(the result differs from the all-Aces-as-11 raw sum by exactly 10 per
demoted Ace, with at most aceCount demotions), every demotion was forced
by a total above 21, the loop stops at ≤ 21 unless all Aces are demoted,
and on the concrete hands: [A, K] scores 21, [A, A] scores 12,
[A, A, 9] scores 21.  The function is a pure Lean function, hence
deterministic and side-effect free by construction. -/
theorem c2_calculateScore_spec (hand : List Card) :
    calculateScore [cardSA, cardHK] = 21 ∧
    calculateScore [cardSA, cardHA] = 12 ∧
    calculateScore [cardSA, cardHA, cardD9] = 21 ∧
    ∃ k, k ≤ aceCount hand ∧
      rawScore hand = calculateScore hand + 10 * k ∧
      (calculateScore hand ≤ 21 ∨ k = aceCount hand) ∧
      ∀ j, j < k → 21 + 10 * j < rawScore hand := by
  refine ⟨by decide, by decide, by decide, ?_⟩
  exact calculateScoreLoop_spec (aceCount hand) (rawScore hand)

/-- Witness for C2 at the concrete hand [A, A, 9]: exactly one of the two
Aces is demoted (raw sum 31, final score 21). -/
theorem c2_calculateScore_spec_witness :
    calculateScore [cardSA, cardHK] = 21 ∧
    calculateScore [cardSA, cardHA] = 12 ∧
    calculateScore [cardSA, cardHA, cardD9] = 21 ∧
    ∃ k, k ≤ aceCount [cardSA, cardHA, cardD9] ∧
      rawScore [cardSA, cardHA, cardD9] =
        calculateScore [cardSA, cardHA, cardD9] + 10 * k ∧
      (calculateScore [cardSA, cardHA, cardD9] ≤ 21 ∨
        k = aceCount [cardSA, cardHA, cardD9]) ∧
      ∀ j, j < k → 21 + 10 * j < rawScore [cardSA, cardHA, cardD9] :=
  c2_calculateScore_spec [cardSA, cardHA, cardD9]

/-- The values room.gameState takes in server.js: waiting, betting,
actionPhase, dealer, result. -/
inductive GameState where
  | waiting
  | betting
  | actionPhase
  | dealer
  | result
  deriving DecidableEq, Repr

/-- A player record as built by createPlayer (server.js line 128) and
mutated by the handlers.  `status` keeps the literal JS strings
(waiting, betting, betted, playing, stand, bust, 脱落). -/
structure Player where
  name : String
  chips : Int
  bet : Int
  hand : List Card
  score : Nat
  status : String
  isEliminated : Bool
  result : String
  deriving DecidableEq, Repr

/-- The dealer record on a room: a hand and its score. -/
structure Dealer where
  hand : List Card
  score : Nat
  deriving DecidableEq, Repr

/-- The timer handles stored on room.timers, modelled as armed flags;
clearInterval / clearTimeout set a flag to false. -/
structure Timers where
  betCountdown : Bool := false
  betTimeout : Bool := false
  actionTimer : Bool := false
  dealerTurn : Bool := false
  countdownTimer : Bool := false
  deriving DecidableEq, Repr

/-- clearAllTimers (server.js line 299): every handle cleared. -/
def clearedTimers : Timers := {}

/-- room.players: a JS object keyed by socket id, in insertion order. -/
abbrev Players := List (String × Player)

/-- A room as created by the createRoom handler (server.js line 50). -/
structure Room where
  players : Players
  gameState : GameState
  round : Nat
  deck : List Card
  dealer : Dealer
  timers : Timers
  deriving DecidableEq, Repr

/-- JS property read room.players[id]: the entry with the given key. -/
def findPlayer : Players → String → Option Player
  | [], _ => none
  | (i, p) :: rest, pid => if i = pid then some p else findPlayer rest pid

/-- JS property write room.players[id] = p: replace the entry when the
key is present, append otherwise (object insertion order). -/
def assignPlayer : Players → String → Player → Players
  | [], pid, p => [(pid, p)]
  | (i, q) :: rest, pid, p =>
    if i = pid then (i, p) :: rest else (i, q) :: assignPlayer rest pid p

/-- delete room.players[id] in the disconnect handler (server.js
line 118). -/
def removePlayer (ps : Players) (pid : String) : Players :=
  ps.filter (fun ip => ip.1 != pid)

/-- createPlayer (server.js line 128): 1000 chips, no bet, empty hand,
status waiting.  (The result field is only written later; it is modelled
as initially empty.) -/
def createPlayer (playerName : String) : Player :=
  { name := playerName, chips := 1000, bet := 0, hand := [], score := 0,
    status := "waiting", isEliminated := false, result := "" }

/-- The allPlayersBetted aggregate of the placeBet handler (server.js
line 84): every player is betted or eliminated. -/
def allPlayersBetted (ps : Players) : Bool :=
  ps.all (fun ip => ip.2.status == "betted" || ip.2.isEliminated)

/-- The allPlayersDone aggregate of checkAndEndActionPhase (server.js
lines 31-36): every player with a positive bet and not eliminated is
stand or bust; other players count as done. -/
def allPlayersDone (ps : Players) : Bool :=
  ps.all (fun ip =>
    if 0 < ip.2.bet ∧ ip.2.isEliminated = false then
      (ip.2.status == "stand") || (ip.2.status == "bust")
    else true)

/-- The joinRoom handler (server.js lines 55-63) for an existing room:
rejected with an error message when the room already has 5 or more
players, otherwise the new player is inserted; there is no check of
room.gameState.  The boolean reports whether the join was accepted. -/
def joinRoomHandler (room : Room) (pid playerName : String) : Room × Bool :=
  if 5 ≤ room.players.length then (room, false)
  else ({ room with players := assignPlayer room.players pid (createPlayer playerName) },
        true)

/-- The body of checkAndEndActionPhase (server.js lines 28-44) for an
existing room: outside actionPhase it does nothing; when every player is
done it clears the action timer and schedules the dealer turn (the
boolean reports that the DEALER_WAIT_TIME timeout was armed). -/
def checkAndEndActionPhase (room : Room) : Room × Bool :=
  if room.gameState = GameState.actionPhase then
    if allPlayersDone room.players then
      ({ room with timers := { room.timers with actionTimer := false } }, true)
    else (room, false)
  else (room, false)

/-- startActionPhase (server.js lines 187-206) up to arming the action
countdown interval: sets the phase and stores the timer handle. -/
def startActionPhase (room : Room) : Room :=
  { room with gameState := GameState.actionPhase,
              timers := { room.timers with actionTimer := true } }

/-- The two draws a betting player receives in dealCards (server.js
line 176): pop two cards, recompute the score, set status playing;
`none` models the crash that drawing from an exhausted deck causes. -/
def dealTwoToPlayer (deck : List Card) (p : Player) : Option (Player × List Card) :=
  match deck.getLast? with
  | none => none
  | some c1 =>
    match deck.dropLast.getLast? with
    | none => none
    | some c2 =>
      let hand := p.hand ++ [c1, c2]
      some ({ p with hand := hand, score := calculateScore hand, status := "playing" },
            deck.dropLast.dropLast)

/-- The player loop of dealCards (server.js lines 173-181): players with
a positive bet and not eliminated draw two cards and become playing;
otherwise a non-eliminated player is set to stand and an eliminated
player is left untouched. -/
def dealToAll : Players → List Card → Option (Players × List Card)
  | [], deck => some ([], deck)
  | (i, p) :: rest, deck =>
    if 0 < p.bet ∧ p.isEliminated = false then
      match dealTwoToPlayer deck p with
      | none => none
      | some (p1, d1) =>
        match dealToAll rest d1 with
        | none => none
        | some (ps1, d2) => some ((i, p1) :: ps1, d2)
    else
      let p1 := if p.isEliminated = false then { p with status := "stand" } else p
      match dealToAll rest deck with
      | none => none
      | some (ps1, d1) => some ((i, p1) :: ps1, d1)

/-- dealCards (server.js lines 170-185) for an existing room: a no-op
unless the phase is betting; otherwise clear all timers, deal two cards
to every active player, deal two cards to the dealer, then enter the
action phase.  `none` models a crash on deck exhaustion. -/
def dealCards (room : Room) : Option Room :=
  if room.gameState = GameState.betting then
    match dealToAll room.players room.deck with
    | none => none
    | some (ps, deck1) =>
      match deck1.getLast? with
      | none => none
      | some c1 =>
        match deck1.dropLast.getLast? with
        | none => none
        | some c2 =>
          let dHand := room.dealer.hand ++ [c1, c2]
          some (startActionPhase
            { room with players := ps, deck := deck1.dropLast.dropLast,
                        dealer := { hand := dHand, score := calculateScore dHand },
                        timers := clearedTimers })
  else some room

/-- The placeBet handler (server.js lines 74-93) for an existing room and
connection: rejected (room unchanged) unless the phase is betting, the
player exists and is not eliminated, and parseInt(amount, 10) is
positive; on acceptance the bet and status are set and, when every
player is betted or eliminated, both betting timers are cleared and the
cards are dealt. -/
def placeBetHandler (room : Room) (pid : String) (amount : String) : Option Room :=
  match findPlayer room.players pid with
  | none => some room
  | some player =>
    if room.gameState = GameState.betting then
      if player.isEliminated then some room
      else
        match jsParseInt amount with
        | none => some room
        | some betAmount =>
          if 0 < betAmount then
            let ps := assignPlayer room.players pid
              { player with bet := betAmount, status := "betted" }
            if allPlayersBetted ps then
              dealCards { room with
                players := ps,
                timers := { room.timers with betTimeout := false, betCountdown := false } }
            else some { room with players := ps }
          else some room
    else some room

/-- The per-player auto-bet of the betTimeout callback (server.js lines
157-162): a player still in status betting is set to bet 0 and betted,
anyone else is untouched. -/
def betTimeoutAdjust (p : Player) : Player :=
  if p.status == "betting" then { p with bet := 0, status := "betted" } else p

/-- The betTimeout callback (server.js lines 155-165) for an existing
room: only when the phase is still betting, every player still in status
betting is auto-set to bet 0 / betted and the cards are dealt. -/
def betTimeoutFire (room : Room) : Option Room :=
  if room.gameState = GameState.betting then
    dealCards { room with
      players := room.players.map (fun ip => (ip.1, betTimeoutAdjust ip.2)) }
  else some room

/-- The hit handler (server.js lines 95-104) for an existing room and
player: a no-op unless the phase is actionPhase and the player is
playing; otherwise pop one card, recompute the score, bust above 21, and
re-run checkAndEndActionPhase.  `none` models the crash on an exhausted
deck; the boolean reports that the dealer turn was scheduled. -/
def hitHandler (room : Room) (pid : String) : Option (Room × Bool) :=
  match findPlayer room.players pid with
  | none => some (room, false)
  | some player =>
    if room.gameState = GameState.actionPhase ∧ player.status = "playing" then
      match room.deck.getLast? with
      | none => none
      | some c =>
        let hand := player.hand ++ [c]
        let score := calculateScore hand
        some (checkAndEndActionPhase
          { room with deck := room.deck.dropLast,
                      players := assignPlayer room.players pid
                        { player with
                          hand := hand, score := score,
                          status := if 21 < score then "bust" else player.status } })
    else some (room, false)

/-- The stand handler (server.js lines 106-113) for an existing room and
player: a no-op unless the phase is actionPhase and the player is
playing; otherwise set status stand and re-run checkAndEndActionPhase. -/
def standHandler (room : Room) (pid : String) : Room × Bool :=
  match findPlayer room.players pid with
  | none => (room, false)
  | some player =>
    if room.gameState = GameState.actionPhase ∧ player.status = "playing" then
      checkAndEndActionPhase
        { room with players := assignPlayer room.players pid { player with status := "stand" } }
    else (room, false)

/-- The disconnect handler (server.js lines 115-126) for a present
player: the player is deleted; an emptied room is destroyed (`none`);
otherwise checkAndEndActionPhase is re-run (the boolean reports that the
dealer turn was scheduled). -/
def disconnectHandler (room : Room) (pid : String) : Option Room × Bool :=
  match findPlayer room.players pid with
  | none => (some room, false)
  | some _ =>
    let ps := removePlayer room.players pid
    if ps.isEmpty then (none, false)
    else
      let rb := checkAndEndActionPhase { room with players := ps }
      (some rb.1, rb.2)

/-- The DEALER_WAIT_TIME timeout armed in checkAndEndActionPhase
(server.js line 40) and in the action-deadline branch (line 200): when it
fires it runs dealerTurn (server.js lines 208-215), whose only guard is
that the room still exists; it then unconditionally sets the phase to
dealer and arms the dealer interval. -/
def dealerWaitFire : Option Room → Option Room
  | none => none
  | some room =>
    some { room with gameState := GameState.dealer,
                     timers := { room.timers with dealerTurn := true } }

/-- The per-player result rule of determineWinner (server.js
lines 222-243): players with a positive bet are compared with the dealer
score captured before the loop; bust loses regardless, a dealer bust or
higher player score wins, a lower player score loses, equality is a
push; after a losing chip update a negative balance sets isEliminated. -/
def resolvePlayer (dealerScore : Nat) (p : Player) : Player :=
  if 0 < p.bet then
    if p.status = "bust" then
      let chips := p.chips - p.bet
      { p with result := "負け (バスト)", chips := chips,
               isEliminated := if chips < 0 then true else p.isEliminated }
    else if 21 < dealerScore ∨ dealerScore < p.score then
      { p with result := "勝ち！", chips := p.chips + p.bet }
    else if p.score < dealerScore then
      let chips := p.chips - p.bet
      { p with result := "負け...", chips := chips,
               isEliminated := if chips < 0 then true else p.isEliminated }
    else { p with result := "引き分け" }
  else p

/-- determineWinner (server.js lines 218-245) up to the round-end timers:
enter the result phase and resolve every player against the dealer
score. -/
def determineWinner (room : Room) : Room :=
  { room with gameState := GameState.result,
              players := room.players.map (fun ip =>
                (ip.1, resolvePlayer room.dealer.score ip.2)) }

/-- One row of the final ranking payload (server.js lines 253-255). -/
structure RankEntry where
  id : String
  name : String
  chips : Int
  deriving DecidableEq, Repr

/-- Insertion into a list sorted by descending chips, modelling the JS
sort((a, b) => b.chips - a.chips). -/
def insertByChips (e : RankEntry) : List RankEntry → List RankEntry
  | [] => [e]
  | f :: rest => if e.chips ≤ f.chips then f :: insertByChips e rest else e :: f :: rest

/-- Sort by descending chips (insertion sort). -/
def sortByChipsDesc : List RankEntry → List RankEntry
  | [] => []
  | e :: rest => insertByChips e (sortByChipsDesc rest)

/-- The fullRanking computed at game end (server.js lines 253-255): every
current player, mapped to id/name/chips and sorted by chips descending. -/
def fullRanking (room : Room) : List RankEntry :=
  sortByChipsDesc (room.players.map (fun ip =>
    { id := ip.1, name := ip.2.name, chips := ip.2.chips }))

/-- The per-player reset of startRound (server.js lines 138-146): hand,
score, bet and result are cleared; eliminated players get the 脱落
status label, the others become betting. -/
def resetPlayerForRound (p : Player) : Player :=
  { p with hand := [], score := 0, bet := 0, result := "",
           status := if p.isEliminated then "脱落" else "betting" }

/-- startRound (server.js lines 134-168) for an existing room: clear all
timers, enter betting with a fresh deck (the shuffle is a parameter) and
a reset dealer, reset every player, then arm the bet countdown and the
bet deadline. -/
def startRound (room : Room) (newDeck : List Card) : Room :=
  { room with gameState := GameState.betting,
              deck := newDeck,
              dealer := { hand := [], score := 0 },
              players := room.players.map (fun ip => (ip.1, resetPlayerForRound ip.2)),
              timers := { clearedTimers with betCountdown := true, betTimeout := true } }

/-- The client projection built by updateGameState (server.js
lines 293-298): the dealer part of the broadcast state. -/
structure ClientDealer where
  hand : List Card
  score : Nat
  deriving DecidableEq, Repr

/-- The full broadcast state built by updateGameState (server.js
lines 293-298). -/
structure ClientState where
  players : Players
  gameState : GameState
  round : Nat
  dealer : ClientDealer
  deriving DecidableEq, Repr

/-- The hidden placeholder card sent in place of the dealer's second card
while the phase is actionPhase (server.js line 296). -/
def hiddenCard : Card := { suit := "hidden", value := " " }

/-- Placeholder for the JS undefined that room.dealer.hand[0] would give
on an empty dealer hand (never the case in the phases the projection
redacts). -/
def undefinedCard : Card := { suit := "undefined", value := "undefined" }

/-- updateGameState (server.js lines 293-298) for an existing room: the
full player map, phase and round are always included; while the phase is
actionPhase the dealer hand is sent as its first card plus a hidden
placeholder with the score of that first card alone, otherwise the full
dealer hand and stored score are sent. -/
def stateForClient (room : Room) : ClientState :=
  let hide := room.gameState = GameState.actionPhase
  { players := room.players, gameState := room.gameState, round := room.round,
    dealer :=
      if hide then
        { hand := [room.dealer.hand.headD undefinedCard, hiddenCard],
          score := calculateScore [room.dealer.hand.headD undefinedCard] }
      else { hand := room.dealer.hand, score := room.dealer.score } }

/-- Spec-side predicate (from the words of the specification, for
comparison with the code): the submitted amount string literally denotes
a positive integer, i.e. it is a non-empty all-digit string with a
positive value. -/
def isPositiveIntegerLiteral (s : String) : Bool :=
  !s.data.isEmpty && s.data.all Char.isDigit && decide (0 < digitsValue s.data 0)

/-- Looking a key up after mapping a function over all values returns the
mapped value. -/
theorem findPlayer_map (f : Player → Player) (ps : Players) (pid : String) :
    findPlayer (ps.map (fun ip => (ip.1, f ip.2))) pid = (findPlayer ps pid).map f := by
  induction ps with
  | nil => rfl
  | cons hd tl ih =>
    obtain ⟨i, p⟩ := hd
    by_cases h : i = pid
    · simp [findPlayer, h]
    · simp [findPlayer, h, ih]

/-- A concrete non-bust player who stood on 18 with a bet of 100. -/
def c1Player : Player :=
  { name := "alice", chips := 1000, bet := 100, hand := [cardD9, cardD9], score := 18,
    status := "stand", isEliminated := false, result := "" }

/-- A concrete five of clubs. -/
def cardC5 : Card := { suit := "♣", value := "5" }

/-- A concrete room in the dealer phase with a busted dealer (K + 5 + 9 =
24) and one standing player. -/
def c1Room : Room :=
  { players := [("p1", c1Player)], gameState := GameState.dealer, round := 1,
    deck := [], dealer := { hand := [cardHK, cardC5, cardD9], score := 24 },
    timers := { clearedTimers with dealerTurn := true } }

/-- C1: determineWinner resolves every player with a positive bet against
the dealer score captured before the loop: a busted player loses the bet
regardless of the dealer score; otherwise a dealer bust or a higher
player score wins the bet; otherwise a lower player score loses the bet;
otherwise (equal scores) the chips are unchanged.  A player whose bet is
not positive is left completely untouched (no result entry, no chip
change). -/
theorem c1_determineWinner_rules (room : Room) (pid : String) (p : Player)
    (hp : findPlayer room.players pid = some p) :
    findPlayer (determineWinner room).players pid =
      some (resolvePlayer room.dealer.score p) ∧
    (p.bet ≤ 0 → resolvePlayer room.dealer.score p = p) ∧
    (0 < p.bet → p.status = "bust" →
      (resolvePlayer room.dealer.score p).chips = p.chips - p.bet) ∧
    (0 < p.bet → p.status ≠ "bust" →
      (21 < room.dealer.score ∨ room.dealer.score < p.score) →
      (resolvePlayer room.dealer.score p).chips = p.chips + p.bet) ∧
    (0 < p.bet → p.status ≠ "bust" → room.dealer.score ≤ 21 →
      p.score < room.dealer.score →
      (resolvePlayer room.dealer.score p).chips = p.chips - p.bet) ∧
    (0 < p.bet → p.status ≠ "bust" → room.dealer.score ≤ 21 →
      p.score = room.dealer.score →
      (resolvePlayer room.dealer.score p).chips = p.chips) := by
  refine ⟨?_, ?_, ?_, ?_, ?_, ?_⟩
  · show findPlayer (room.players.map _) pid = _
    rw [findPlayer_map, hp]
    rfl
  · intro hb
    unfold resolvePlayer
    rw [if_neg (by omega)]
  · intro hb hbust
    unfold resolvePlayer
    rw [if_pos hb, if_pos hbust]
  · intro hb hbust hwin
    unfold resolvePlayer
    rw [if_pos hb, if_neg hbust, if_pos hwin]
  · intro hb hbust hds hlt
    have hw : ¬(21 < room.dealer.score ∨ room.dealer.score < p.score) := by omega
    unfold resolvePlayer
    rw [if_pos hb, if_neg hbust, if_neg hw, if_pos hlt]
  · intro hb hbust hds heq
    have hw : ¬(21 < room.dealer.score ∨ room.dealer.score < p.score) := by omega
    have hl : ¬(p.score < room.dealer.score) := by omega
    unfold resolvePlayer
    rw [if_pos hb, if_neg hbust, if_neg hw, if_neg hl]

/-- Witness for C1 on a concrete room: the dealer busted at 24 against a
standing 18, so the player's chips go from 1000 to 1100. -/
theorem c1_determineWinner_rules_witness :
    findPlayer c1Room.players "p1" = some c1Player ∧
    findPlayer (determineWinner c1Room).players "p1" =
      some (resolvePlayer c1Room.dealer.score c1Player) ∧
    (resolvePlayer c1Room.dealer.score c1Player).chips = 1100 :=
  ⟨by decide,
   (c1_determineWinner_rules c1Room "p1" c1Player (by decide)).1,
   by decide⟩

/-- A concrete room that has already advanced to the result phase. -/
def staleRoom : Room :=
  { players := [("p1", c1Player)], gameState := GameState.result, round := 1,
    deck := [], dealer := { hand := [cardHK, cardC5, cardD9], score := 24 },
    timers := {} }

/-- C3 (refuted): the DEALER_WAIT_TIME timeout armed during the action
phase runs dealerTurn when it fires, and dealerTurn checks only that the
room still exists, not the phase it was armed for (server.js lines
40-42, 200-202, 208-215).  Fired against a room whose phase has already
advanced to result, it is not a no-op: it mutates the room, forcing the
phase back to dealer and re-arming the dealer interval.  By contrast the
bet-deadline timeout is correctly guarded and is a no-op outside the
betting phase. -/
theorem c3_stale_dealer_timer_mutates_state :
    staleRoom.gameState = GameState.result ∧
    dealerWaitFire (some staleRoom) ≠ some staleRoom ∧
    (dealerWaitFire (some staleRoom)).map Room.gameState = some GameState.dealer ∧
    betTimeoutFire staleRoom = some staleRoom := by decide

/-- C5: dealCard is deck.pop(): on a non-empty deck it removes and
returns the last card, but on an empty deck it silently returns JS
undefined (modelled `none`) together with the still-empty deck — there
is no DeckExhausted error anywhere in the code. -/
theorem c5_dealCard_pop_behaviour :
    dealCard [cardSA, cardHK] = (some cardHK, [cardSA]) ∧
    dealCard ([] : List Card) = (none, []) := by decide

/-- A concrete room in the action phase whose dealer holds an Ace (first
card) and a King (second card). -/
def c4Room : Room :=
  { players := [("p1", c1Player)], gameState := GameState.actionPhase, round := 1,
    deck := [], dealer := { hand := [cardSA, cardHK], score := 21 },
    timers := { clearedTimers with actionTimer := true } }

/-- C4 counterexample: during the action phase the projection contains
the dealer's first card verbatim — it is the second card that is
replaced by the hidden placeholder — and the reported score is the score
of that first card (11 for the Ace), not of the card that was hidden
(10 for the King).  This refutes the claim that the first card is
redacted. -/
theorem c4_counterexample_first_card_visible :
    c4Room.gameState = GameState.actionPhase ∧
    cardSA ∈ (stateForClient c4Room).dealer.hand ∧
    (stateForClient c4Room).dealer.hand = [cardSA, hiddenCard] ∧
    (stateForClient c4Room).dealer.score = calculateScore [cardSA] ∧
    calculateScore [cardSA] ≠ calculateScore [cardHK] := by decide

/-- C4 (amended): while the phase is actionPhase the projection shows the
dealer's first card and replaces the second (hole) card with a hidden
placeholder, reporting only the first (visible) card's score; in every
other phase the full dealer hand and stored score are sent; the full
player map, phase and round are included in every projection. -/
theorem c4_projection_redacts_hole_card (room : Room) (c1 : Card) (rest : List Card)
    (h : room.dealer.hand = c1 :: rest) :
    (stateForClient room).players = room.players ∧
    (stateForClient room).gameState = room.gameState ∧
    (stateForClient room).round = room.round ∧
    (room.gameState = GameState.actionPhase →
      (stateForClient room).dealer.hand = [c1, hiddenCard] ∧
      (stateForClient room).dealer.score = calculateScore [c1]) ∧
    (room.gameState ≠ GameState.actionPhase →
      (stateForClient room).dealer.hand = room.dealer.hand ∧
      (stateForClient room).dealer.score = room.dealer.score) := by
  by_cases hph : room.gameState = GameState.actionPhase
  · simp [stateForClient, hph, h]
  · simp [stateForClient, hph, h]

/-- Witness for C4 (amended) on the concrete action-phase room: the
projection keeps the full player map while redacting the hole card. -/
theorem c4_projection_redacts_hole_card_witness :
    c4Room.dealer.hand = cardSA :: [cardHK] ∧
    (stateForClient c4Room).players = c4Room.players ∧
    (stateForClient c4Room).dealer.hand = [cardSA, hiddenCard] :=
  ⟨by decide,
   (c4_projection_redacts_hole_card c4Room cardSA [cardHK] (by decide)).1,
   ((c4_projection_redacts_hole_card c4Room cardSA [cardHK] (by decide)).2.2.2.1 rfl).1⟩

/-- Assigning a key and looking it up returns the assigned value, both
when the key was present (replace) and when it was absent (append). -/
theorem findPlayer_assign_self (ps : Players) (pid : String) (p : Player) :
    findPlayer (assignPlayer ps pid p) pid = some p := by
  induction ps with
  | nil => simp [assignPlayer, findPlayer]
  | cons hd tl ih =>
    obtain ⟨i, q⟩ := hd
    by_cases h : i = pid
    · simp [assignPlayer, h, findPlayer]
    · simp [assignPlayer, h, findPlayer, ih]

/-- Assigning one key does not change the lookup of a different key. -/
theorem findPlayer_assign_other (ps : Players) (pid pid2 : String) (p : Player)
    (h : pid2 ≠ pid) :
    findPlayer (assignPlayer ps pid p) pid2 = findPlayer ps pid2 := by
  induction ps with
  | nil =>
    simp only [assignPlayer, findPlayer]
    rw [if_neg (fun hh => h hh.symm)]
  | cons hd tl ih =>
    obtain ⟨i, q⟩ := hd
    by_cases hip : i = pid
    · subst hip
      simp only [assignPlayer, if_pos rfl, findPlayer]
      rw [if_neg (fun hh => h hh.symm), if_neg (fun hh => h hh.symm)]
    · simp only [assignPlayer, if_neg hip, findPlayer]
      by_cases hip2 : i = pid2
      · rw [if_pos hip2, if_pos hip2]
      · rw [if_neg hip2, if_neg hip2, ih]

/-- A present player who is neither betted nor eliminated falsifies the
allPlayersBetted aggregate. -/
theorem allPlayersBetted_false_of_find (ps : Players) (pid : String) (q : Player)
    (hq : findPlayer ps pid = some q) (hs : q.status ≠ "betted")
    (he : q.isEliminated = false) :
    allPlayersBetted ps = false := by
  induction ps with
  | nil => simp [findPlayer] at hq
  | cons hd tl ih =>
    obtain ⟨i, p⟩ := hd
    by_cases h : i = pid
    · rw [findPlayer, if_pos h] at hq
      injection hq with hq
      subst hq
      simp [allPlayersBetted, hs, he]
    · rw [findPlayer, if_neg h] at hq
      unfold allPlayersBetted
      rw [List.all_cons]
      have htl := ih hq
      unfold allPlayersBetted at htl
      rw [htl, Bool.and_false]

/-- In the dealing loop, a player with a positive bet who is not
eliminated ends up with two more cards, the recomputed score, status
playing, and an unchanged bet, elimination flag and chip count. -/
theorem dealToAll_active (pid : String) (q : Player)
    (hbet : 0 < q.bet) (helim : q.isEliminated = false) :
    ∀ (ps : Players) (deck : List Card) (ps1 : Players) (d1 : List Card),
      findPlayer ps pid = some q → dealToAll ps deck = some (ps1, d1) →
      ∃ q1, findPlayer ps1 pid = some q1 ∧ q1.bet = q.bet ∧
        q1.status = "playing" ∧ q1.isEliminated = q.isEliminated ∧
        q1.chips = q.chips := by
  intro ps
  induction ps with
  | nil =>
    intro deck ps1 d1 hf
    simp [findPlayer] at hf
  | cons hd tl ih =>
    obtain ⟨i, p⟩ := hd
    intro deck ps1 d1 hf hda
    by_cases hip : i = pid
    · rw [findPlayer, if_pos hip] at hf
      injection hf with hf
      subst hf
      rw [dealToAll, if_pos ⟨hbet, helim⟩] at hda
      cases hdt : dealTwoToPlayer deck p with
      | none =>
        rw [hdt] at hda
        exact absurd hda (by simp)
      | some pr =>
        obtain ⟨p1, dd⟩ := pr
        rw [hdt] at hda
        dsimp only at hda
        cases hda2 : dealToAll tl dd with
        | none =>
          rw [hda2] at hda
          exact absurd hda (by simp)
        | some pr2 =>
          obtain ⟨ps2, d2⟩ := pr2
          rw [hda2] at hda
          dsimp only at hda
          simp only [Option.some.injEq, Prod.mk.injEq] at hda
          obtain ⟨h1, h2⟩ := hda
          subst h1
          refine ⟨p1, by rw [findPlayer, if_pos hip], ?_⟩
          unfold dealTwoToPlayer at hdt
          cases hg1 : deck.getLast? with
          | none =>
            rw [hg1] at hdt
            exact absurd hdt (by simp)
          | some c1 =>
            rw [hg1] at hdt
            dsimp only at hdt
            cases hg2 : deck.dropLast.getLast? with
            | none =>
              rw [hg2] at hdt
              exact absurd hdt (by simp)
            | some c2 =>
              rw [hg2] at hdt
              dsimp only at hdt
              simp only [Option.some.injEq, Prod.mk.injEq] at hdt
              obtain ⟨h3, h4⟩ := hdt
              subst h3
              exact ⟨rfl, rfl, rfl, rfl⟩
    · rw [findPlayer, if_neg hip] at hf
      rw [dealToAll] at hda
      by_cases hcond : 0 < p.bet ∧ p.isEliminated = false
      · rw [if_pos hcond] at hda
        cases hdt : dealTwoToPlayer deck p with
        | none =>
          rw [hdt] at hda
          exact absurd hda (by simp)
        | some pr =>
          obtain ⟨p1, dd⟩ := pr
          rw [hdt] at hda
          dsimp only at hda
          cases hda2 : dealToAll tl dd with
          | none =>
            rw [hda2] at hda
            exact absurd hda (by simp)
          | some pr2 =>
            obtain ⟨ps2, d2⟩ := pr2
            rw [hda2] at hda
            dsimp only at hda
            simp only [Option.some.injEq, Prod.mk.injEq] at hda
            obtain ⟨h1, h2⟩ := hda
            subst h1
            obtain ⟨q1, hq1, hrest⟩ := ih dd ps2 d2 hf hda2
            exact ⟨q1, by rw [findPlayer, if_neg hip]; exact hq1, hrest⟩
      · rw [if_neg hcond] at hda
        dsimp only at hda
        cases hda2 : dealToAll tl deck with
        | none =>
          rw [hda2] at hda
          exact absurd hda (by simp)
        | some pr2 =>
          obtain ⟨ps2, d2⟩ := pr2
          rw [hda2] at hda
          dsimp only at hda
          simp only [Option.some.injEq, Prod.mk.injEq] at hda
          obtain ⟨h1, h2⟩ := hda
          subst h1
          obtain ⟨q1, hq1, hrest⟩ := ih deck ps2 d2 hf hda2
          exact ⟨q1, by rw [findPlayer, if_neg hip]; exact hq1, hrest⟩

/-- In the dealing loop, a player who is eliminated or has no positive
bet receives no cards: a non-eliminated one is merely set to stand, an
eliminated one is untouched. -/
theorem dealToAll_skip (pid : String) (q : Player)
    (hskip : ¬(0 < q.bet ∧ q.isEliminated = false)) :
    ∀ (ps : Players) (deck : List Card) (ps1 : Players) (d1 : List Card),
      findPlayer ps pid = some q → dealToAll ps deck = some (ps1, d1) →
      findPlayer ps1 pid =
        some (if q.isEliminated = false then { q with status := "stand" } else q) := by
  intro ps
  induction ps with
  | nil =>
    intro deck ps1 d1 hf
    simp [findPlayer] at hf
  | cons hd tl ih =>
    obtain ⟨i, p⟩ := hd
    intro deck ps1 d1 hf hda
    by_cases hip : i = pid
    · rw [findPlayer, if_pos hip] at hf
      injection hf with hf
      subst hf
      rw [dealToAll, if_neg hskip] at hda
      dsimp only at hda
      cases hda2 : dealToAll tl deck with
      | none =>
        rw [hda2] at hda
        exact absurd hda (by simp)
      | some pr2 =>
        obtain ⟨ps2, d2⟩ := pr2
        rw [hda2] at hda
        dsimp only at hda
        simp only [Option.some.injEq, Prod.mk.injEq] at hda
        obtain ⟨h1, h2⟩ := hda
        subst h1
        rw [findPlayer, if_pos hip]
    · rw [findPlayer, if_neg hip] at hf
      rw [dealToAll] at hda
      by_cases hcond : 0 < p.bet ∧ p.isEliminated = false
      · rw [if_pos hcond] at hda
        cases hdt : dealTwoToPlayer deck p with
        | none =>
          rw [hdt] at hda
          exact absurd hda (by simp)
        | some pr =>
          obtain ⟨p1, dd⟩ := pr
          rw [hdt] at hda
          dsimp only at hda
          cases hda2 : dealToAll tl dd with
          | none =>
            rw [hda2] at hda
            exact absurd hda (by simp)
          | some pr2 =>
            obtain ⟨ps2, d2⟩ := pr2
            rw [hda2] at hda
            dsimp only at hda
            simp only [Option.some.injEq, Prod.mk.injEq] at hda
            obtain ⟨h1, h2⟩ := hda
            subst h1
            rw [findPlayer, if_neg hip]
            exact ih dd ps2 d2 hf hda2
      · rw [if_neg hcond] at hda
        dsimp only at hda
        cases hda2 : dealToAll tl deck with
        | none =>
          rw [hda2] at hda
          exact absurd hda (by simp)
        | some pr2 =>
          obtain ⟨ps2, d2⟩ := pr2
          rw [hda2] at hda
          dsimp only at hda
          simp only [Option.some.injEq, Prod.mk.injEq] at hda
          obtain ⟨h1, h2⟩ := hda
          subst h1
          rw [findPlayer, if_neg hip]
          exact ih deck ps2 d2 hf hda2


/-- A concrete player still in betting status with no bet placed. -/
def c6Player : Player :=
  { name := "bob", chips := 1000, bet := 0, hand := [], score := 0,
    status := "betting", isEliminated := false, result := "" }

/-- A concrete two-player room in the betting phase with both betting
timers armed. -/
def c6Room : Room :=
  { players := [("p1", c6Player), ("p2", { c6Player with name := "carol" })],
    gameState := GameState.betting, round := 1, deck := [],
    dealer := { hand := [], score := 0 },
    timers := { clearedTimers with betCountdown := true, betTimeout := true } }

/-- C6 counterexample: the submitted amount "5.7" is not a positive
integer, yet the bet is accepted, because the handler validates
parseInt(amount, 10) — which truncates "5.7" to 5 — rather than the
submitted amount itself: the player's bet becomes 5 and their status
becomes betted, so the room state does change.  This refutes the
only-if direction of the claimed acceptance condition. -/
theorem c6_counterexample_non_integer_accepted :
    isPositiveIntegerLiteral "5.7" = false ∧
    placeBetHandler c6Room "p1" "5.7" =
      some { c6Room with players :=
        [("p1", { c6Player with bet := 5, status := "betted" }),
         ("p2", { c6Player with name := "carol" })] } ∧
    placeBetHandler c6Room "p1" "5.7" ≠ some c6Room := by decide

/-- C6 (amended): a bet placement is accepted if and only if the room's
phase is betting, the requesting player exists and is not eliminated,
and parseInt(amount, 10) yields a positive value (so non-integer strings
with a positive integer prefix, such as "5.7", are accepted with the
truncated value); on acceptance the player's bet is set to the parsed
value and the status to betted (possibly advanced further to playing by
the immediate dealing), and on every rejection the room is unchanged. -/
theorem c6_placeBet_amended (room : Room) (pid : String) (amount : String) :
    (findPlayer room.players pid = none → placeBetHandler room pid amount = some room) ∧
    (room.gameState ≠ GameState.betting → placeBetHandler room pid amount = some room) ∧
    (∀ q, findPlayer room.players pid = some q → room.gameState = GameState.betting →
      (q.isEliminated = true → placeBetHandler room pid amount = some room) ∧
      (jsParseInt amount = none → placeBetHandler room pid amount = some room) ∧
      (∀ v : Int, jsParseInt amount = some v → v ≤ 0 →
        placeBetHandler room pid amount = some room) ∧
      (∀ v : Int, jsParseInt amount = some v → 0 < v → q.isEliminated = false →
        placeBetHandler room pid amount = none ∨
        ∃ room1 q1, placeBetHandler room pid amount = some room1 ∧
          findPlayer room1.players pid = some q1 ∧ q1.bet = v ∧
          (q1.status = "betted" ∨ q1.status = "playing"))) := by
  refine ⟨?_, ?_, ?_⟩
  · intro h
    unfold placeBetHandler
    rw [h]
  · intro h
    unfold placeBetHandler
    cases hf : findPlayer room.players pid with
    | none => rfl
    | some q =>
      dsimp only
      rw [if_neg h]
  · intro q hf hph
    refine ⟨?_, ?_, ?_, ?_⟩
    · intro he
      unfold placeBetHandler
      rw [hf]
      dsimp only
      rw [if_pos hph, if_pos he]
    · intro hpn
      unfold placeBetHandler
      rw [hf]
      dsimp only
      rw [if_pos hph]
      by_cases he : q.isEliminated
      · rw [if_pos he]
      · rw [if_neg he, hpn]
    · intro v hv hvle
      unfold placeBetHandler
      rw [hf]
      dsimp only
      rw [if_pos hph]
      by_cases he : q.isEliminated
      · rw [if_pos he]
      · rw [if_neg he, hv]
        dsimp only
        rw [if_neg (by omega)]
    · intro v hv hvpos he
      unfold placeBetHandler
      rw [hf]
      dsimp only
      rw [if_pos hph, if_neg (by simp [he]), hv]
      dsimp only
      rw [if_pos hvpos]
      by_cases hall :
          allPlayersBetted (assignPlayer room.players pid { q with bet := v, status := "betted" })
      · rw [if_pos hall]
        unfold dealCards
        dsimp only
        rw [if_pos hph]
        cases hdta : dealToAll
            (assignPlayer room.players pid { q with bet := v, status := "betted" }) room.deck with
        | none => exact Or.inl rfl
        | some pr =>
          obtain ⟨ps1, d1⟩ := pr
          dsimp only
          cases hg1 : d1.getLast? with
          | none => exact Or.inl rfl
          | some c1 =>
            dsimp only
            cases hg2 : d1.dropLast.getLast? with
            | none => exact Or.inl rfl
            | some c2 =>
              dsimp only
              obtain ⟨q1, hq1, hbet1, hstat1, _⟩ :=
                dealToAll_active pid { q with bet := v, status := "betted" }
                  (by dsimp only; omega) (by dsimp only; exact he)
                  (assignPlayer room.players pid { q with bet := v, status := "betted" })
                  room.deck ps1 d1 (findPlayer_assign_self _ _ _) hdta
              exact Or.inr ⟨_, q1, rfl, hq1, hbet1, Or.inr hstat1⟩
      · rw [if_neg hall]
        exact Or.inr ⟨_, { q with bet := v, status := "betted" }, rfl,
          findPlayer_assign_self _ _ _, rfl, Or.inl rfl⟩

/-- Witness for C6 (amended) on the concrete two-player room: the bet
"100" by the first player is accepted and sets bet 100 / status betted
(the second player has not betted yet, so no dealing happens). -/
theorem c6_placeBet_amended_witness :
    findPlayer c6Room.players "p1" = some c6Player ∧
    jsParseInt "100" = some 100 ∧
    (placeBetHandler c6Room "p1" "100" = none ∨
      ∃ room1 q1, placeBetHandler c6Room "p1" "100" = some room1 ∧
        findPlayer room1.players "p1" = some q1 ∧ q1.bet = 100 ∧
        (q1.status = "betted" ∨ q1.status = "playing")) :=
  ⟨by decide, by decide,
   ((c6_placeBet_amended c6Room "p1" "100").2.2 c6Player (by decide) (by decide)).2.2.2
     100 (by decide) (by decide) (by decide)⟩

/-- A successful dealCards called in the betting phase always lands in
the action phase with exactly the action countdown timer armed (all
timers were cleared first, then startActionPhase armed the interval). -/
theorem dealCards_success_phase (room room1 : Room)
    (h : dealCards room = some room1)
    (hphase : room.gameState = GameState.betting) :
    room1.gameState = GameState.actionPhase ∧
    room1.timers = { clearedTimers with actionTimer := true } := by
  unfold dealCards at h
  rw [if_pos hphase] at h
  cases hda : dealToAll room.players room.deck with
  | none =>
    rw [hda] at h
    exact absurd h (by simp)
  | some pr =>
    obtain ⟨ps1, d1⟩ := pr
    rw [hda] at h
    dsimp only at h
    cases hg1 : d1.getLast? with
    | none =>
      rw [hg1] at h
      exact absurd h (by simp)
    | some c1 =>
      rw [hg1] at h
      dsimp only at h
      cases hg2 : d1.dropLast.getLast? with
      | none =>
        rw [hg2] at h
        exact absurd h (by simp)
      | some c2 =>
        rw [hg2] at h
        dsimp only at h
        injection h with h
        subst h
        exact ⟨rfl, rfl⟩

/-- C7: when an accepted bet makes the allPlayersBetted aggregate hold
(every non-eliminated player betted), the handler clears both betting
timers (the countdown and the hard deadline) and immediately calls
dealCards, which deals and enters the action phase without waiting for
the bet deadline: any resulting room is in actionPhase with both betting
timers cleared and only the action countdown armed. -/
theorem c7_all_betted_advances (room : Room) (pid : String) (q : Player)
    (amount : String) (v : Int)
    (hf : findPlayer room.players pid = some q)
    (hph : room.gameState = GameState.betting)
    (he : q.isEliminated = false)
    (hv : jsParseInt amount = some v) (hvpos : 0 < v)
    (hall : allPlayersBetted
      (assignPlayer room.players pid { q with bet := v, status := "betted" }) = true) :
    placeBetHandler room pid amount =
      dealCards { room with
        players := assignPlayer room.players pid { q with bet := v, status := "betted" },
        timers := { room.timers with betTimeout := false, betCountdown := false } } ∧
    ∀ room1, placeBetHandler room pid amount = some room1 →
      room1.gameState = GameState.actionPhase ∧
      room1.timers.betTimeout = false ∧ room1.timers.betCountdown = false ∧
      room1.timers.actionTimer = true := by
  have heq : placeBetHandler room pid amount =
      dealCards { room with
        players := assignPlayer room.players pid { q with bet := v, status := "betted" },
        timers := { room.timers with betTimeout := false, betCountdown := false } } := by
    unfold placeBetHandler
    rw [hf]
    dsimp only
    rw [if_pos hph, if_neg (by simp [he]), hv]
    dsimp only
    rw [if_pos hvpos, if_pos hall]
  refine ⟨heq, ?_⟩
  intro room1 h1
  rw [heq] at h1
  obtain ⟨hg, ht⟩ := dealCards_success_phase _ room1 h1 (by exact hph)
  refine ⟨hg, ?_, ?_, ?_⟩
  · simp [ht, clearedTimers]
  · simp [ht, clearedTimers]
  · simp [ht, clearedTimers]

/-- A concrete one-player betting room with a four-card deck (drawing
pops from the end: the player receives A and K, the dealer 5 and 9). -/
def c7Room : Room :=
  { players := [("p1", c6Player)], gameState := GameState.betting, round := 1,
    deck := [cardD9, cardC5, cardHK, cardSA],
    dealer := { hand := [], score := 0 },
    timers := { clearedTimers with betCountdown := true, betTimeout := true } }

/-- Witness for C7 on the concrete one-player room: the single bet of 100
completes the aggregate, both betting timers are cleared and the room is
dealt into the action phase at once. -/
theorem c7_all_betted_advances_witness :
    jsParseInt "100" = some 100 ∧
    allPlayersBetted (assignPlayer c7Room.players "p1"
      { c6Player with bet := 100, status := "betted" }) = true ∧
    placeBetHandler c7Room "p1" "100" =
      dealCards { c7Room with
        players := assignPlayer c7Room.players "p1"
          { c6Player with bet := 100, status := "betted" },
        timers := { c7Room.timers with betTimeout := false, betCountdown := false } } ∧
    (placeBetHandler c7Room "p1" "100").map Room.gameState =
      some GameState.actionPhase :=
  ⟨by decide, by decide,
   (c7_all_betted_advances c7Room "p1" c6Player "100" 100 (by decide) (by decide)
     (by decide) (by decide) (by decide) (by decide)).1,
   by decide⟩

/-- The allPlayersDone aggregate holds exactly when every player with a
positive bet who is not eliminated is stand or bust — eliminated and
zero-bet players satisfy it vacuously. -/
theorem allPlayersDone_iff (ps : Players) :
    allPlayersDone ps = true ↔
      ∀ ip ∈ ps, 0 < ip.2.bet ∧ ip.2.isEliminated = false →
        (ip.2.status = "stand" ∨ ip.2.status = "bust") := by
  unfold allPlayersDone
  rw [List.all_eq_true]
  constructor
  · intro h ip hmem hcond
    have hx := h ip hmem
    rw [if_pos hcond] at hx
    simpa using hx
  · intro h ip hmem
    by_cases hcond : 0 < ip.2.bet ∧ ip.2.isEliminated = false
    · rw [if_pos hcond]
      simpa using h ip hmem hcond
    · rw [if_neg hcond]

/-- C8: while the phase is action, the all-done aggregate is exactly
"every player with bet > 0 and not eliminated is stand or bust"
(eliminated and zero-bet players vacuously satisfy it); when it holds,
checkAndEndActionPhase clears the action timer and schedules the dealer
turn (flag true), whose firing sets the phase to dealer; the stand and
hit handlers route every successful action through
checkAndEndActionPhase; and a disconnect that leaves the remaining
players all done immediately clears the action timer and schedules the
dealer turn. -/
theorem c8_action_phase_completion (room : Room) (pid : String)
    (hphase : room.gameState = GameState.actionPhase) :
    (allPlayersDone room.players = true ↔
      ∀ ip ∈ room.players, 0 < ip.2.bet ∧ ip.2.isEliminated = false →
        (ip.2.status = "stand" ∨ ip.2.status = "bust")) ∧
    (allPlayersDone room.players = true →
      checkAndEndActionPhase room =
        ({ room with timers := { room.timers with actionTimer := false } }, true)) ∧
    (allPlayersDone room.players = false → checkAndEndActionPhase room = (room, false)) ∧
    (∀ r : Room, (dealerWaitFire (some r)).map Room.gameState = some GameState.dealer) ∧
    (∀ q, findPlayer room.players pid = some q → q.status = "playing" →
      standHandler room pid =
        checkAndEndActionPhase
          { room with players := assignPlayer room.players pid { q with status := "stand" } }) ∧
    (∀ q c, findPlayer room.players pid = some q → q.status = "playing" →
      room.deck.getLast? = some c →
      hitHandler room pid =
        some (checkAndEndActionPhase
          { room with deck := room.deck.dropLast,
                      players := assignPlayer room.players pid
                        { q with
                          hand := q.hand ++ [c],
                          score := calculateScore (q.hand ++ [c]),
                          status := if 21 < calculateScore (q.hand ++ [c]) then "bust"
                                    else q.status } })) ∧
    (findPlayer room.players pid ≠ none → removePlayer room.players pid ≠ [] →
      allPlayersDone (removePlayer room.players pid) = true →
      disconnectHandler room pid =
        (some { room with
                players := removePlayer room.players pid,
                timers := { room.timers with actionTimer := false } }, true)) := by
  refine ⟨allPlayersDone_iff room.players, ?_, ?_, fun r => rfl, ?_, ?_, ?_⟩
  · intro h
    unfold checkAndEndActionPhase
    rw [if_pos hphase, if_pos h]
  · intro h
    unfold checkAndEndActionPhase
    rw [if_pos hphase, if_neg (by simp [h])]
  · intro q hq hst
    unfold standHandler
    rw [hq]
    dsimp only
    rw [if_pos ⟨hphase, hst⟩]
  · intro q c hq hst hdk
    unfold hitHandler
    rw [hq]
    dsimp only
    rw [if_pos ⟨hphase, hst⟩, hdk]
  · intro hne hnempty hdone
    unfold disconnectHandler
    cases hn : findPlayer room.players pid with
    | none => exact absurd hn hne
    | some q =>
      dsimp only
      rw [if_neg (by simpa [List.isEmpty_iff] using hnempty)]
      have hce : checkAndEndActionPhase { room with players := removePlayer room.players pid } =
          ({ room with
             players := removePlayer room.players pid,
             timers := { room.timers with actionTimer := false } }, true) := by
        unfold checkAndEndActionPhase
        rw [if_pos (by exact hphase), if_pos hdone]
      rw [hce]

/-- A concrete standing player for the C8 scenario. -/
def c8PlayerStand : Player :=
  { name := "erin", chips := 900, bet := 100, hand := [cardHK, cardD9], score := 19,
    status := "stand", isEliminated := false, result := "" }

/-- A concrete still-playing player for the C8 scenario. -/
def c8PlayerPlaying : Player :=
  { name := "frank", chips := 1000, bet := 50, hand := [cardC5, cardD9], score := 14,
    status := "playing", isEliminated := false, result := "" }

/-- A concrete action-phase room: one player stands, the other is still
playing. -/
def c8Room : Room :=
  { players := [("p1", c8PlayerStand), ("p2", c8PlayerPlaying)],
    gameState := GameState.actionPhase, round := 2, deck := [cardSA],
    dealer := { hand := [cardHA, cardC5], score := 16 },
    timers := { clearedTimers with actionTimer := true } }

/-- Witness for C8 on the concrete room: when the still-playing player
disconnects, the remaining player already stands, so the action timer is
cleared and the dealer turn is scheduled immediately. -/
theorem c8_action_phase_completion_witness :
    allPlayersDone (removePlayer c8Room.players "p2") = true ∧
    disconnectHandler c8Room "p2" =
      (some { c8Room with
              players := removePlayer c8Room.players "p2",
              timers := { c8Room.timers with actionTimer := false } }, true) :=
  ⟨by decide,
   (c8_action_phase_completion c8Room "p2" (by decide)).2.2.2.2.2.2
     (by decide) (by decide) (by decide)⟩

/-- Membership is preserved by the ranking insertion. -/
theorem mem_insertByChips (e f : RankEntry) (l : List RankEntry) :
    f ∈ insertByChips e l ↔ f = e ∨ f ∈ l := by
  induction l with
  | nil => simp [insertByChips]
  | cons g tl ih =>
    unfold insertByChips
    by_cases h : e.chips ≤ g.chips
    · rw [if_pos h]
      simp only [List.mem_cons, ih]
      tauto
    · rw [if_neg h]
      simp only [List.mem_cons]

/-- Membership is preserved by the ranking sort. -/
theorem mem_sortByChipsDesc (f : RankEntry) (l : List RankEntry) :
    f ∈ sortByChipsDesc l ↔ f ∈ l := by
  induction l with
  | nil => simp [sortByChipsDesc]
  | cons e tl ih => simp [sortByChipsDesc, mem_insertByChips, ih]

/-- A successful lookup means the entry is in the list. -/
theorem findPlayer_mem (ps : Players) (pid : String) (q : Player)
    (h : findPlayer ps pid = some q) : (pid, q) ∈ ps := by
  induction ps with
  | nil => simp [findPlayer] at h
  | cons hd tl ih =>
    obtain ⟨i, p⟩ := hd
    rw [findPlayer] at h
    by_cases hip : i = pid
    · rw [if_pos hip] at h
      injection h with h
      subst hip
      subst h
      exact List.mem_cons_self _ _
    · rw [if_neg hip] at h
      exact List.mem_cons_of_mem _ (ih h)

/-- C9: in the result computation, a loss that drives a (previously
non-negative) chip balance below zero sets isEliminated, and on every
path resolvePlayer never clears an elimination flag that was already
set; a new round keeps the flag and the (possibly negative) chip total
and shows the eliminated status label; an eliminated player's bet is
always rejected with the room unchanged; the dealing loop hands an
eliminated player no cards and leaves their record untouched; and every
player — eliminated included — appears in the final ranking with their
id, name and chip count. -/
theorem c9_elimination_permanent (ds : Nat) (p : Player) (room : Room) (pid : String) :
    (0 ≤ p.chips → (resolvePlayer ds p).chips < 0 →
      (resolvePlayer ds p).isEliminated = true) ∧
    (p.isEliminated = true → (resolvePlayer ds p).isEliminated = true) ∧
    ((resetPlayerForRound p).isEliminated = p.isEliminated ∧
      (resetPlayerForRound p).chips = p.chips ∧
      (p.isEliminated = true → (resetPlayerForRound p).status = "脱落")) ∧
    (∀ amount q, findPlayer room.players pid = some q → q.isEliminated = true →
      placeBetHandler room pid amount = some room) ∧
    (∀ q ps1 d1, findPlayer room.players pid = some q → q.isEliminated = true →
      dealToAll room.players room.deck = some (ps1, d1) →
      findPlayer ps1 pid = some q) ∧
    (∀ q, findPlayer room.players pid = some q →
      ∃ e ∈ fullRanking room, e.id = pid ∧ e.name = q.name ∧ e.chips = q.chips) := by
  refine ⟨?_, ?_, ⟨rfl, rfl, fun h => by simp [resetPlayerForRound, h]⟩, ?_, ?_, ?_⟩
  · intro h0 hneg
    unfold resolvePlayer at hneg ⊢
    by_cases hb : 0 < p.bet
    · rw [if_pos hb] at hneg ⊢
      by_cases hbust : p.status = "bust"
      · rw [if_pos hbust] at hneg ⊢
        dsimp only at hneg ⊢
        rw [if_pos hneg]
      · rw [if_neg hbust] at hneg ⊢
        by_cases hwin : 21 < ds ∨ ds < p.score
        · rw [if_pos hwin] at hneg ⊢
          dsimp only at hneg
          omega
        · rw [if_neg hwin] at hneg ⊢
          by_cases hlt : p.score < ds
          · rw [if_pos hlt] at hneg ⊢
            dsimp only at hneg ⊢
            rw [if_pos hneg]
          · rw [if_neg hlt] at hneg ⊢
            dsimp only at hneg
            omega
    · rw [if_neg hb] at hneg ⊢
      omega
  · intro h
    unfold resolvePlayer
    by_cases hb : 0 < p.bet
    · rw [if_pos hb]
      by_cases hbust : p.status = "bust"
      · rw [if_pos hbust]
        dsimp only
        by_cases hneg : p.chips - p.bet < 0
        · rw [if_pos hneg]
        · rw [if_neg hneg]
          exact h
      · rw [if_neg hbust]
        by_cases hwin : 21 < ds ∨ ds < p.score
        · rw [if_pos hwin]
          exact h
        · rw [if_neg hwin]
          by_cases hlt : p.score < ds
          · rw [if_pos hlt]
            dsimp only
            by_cases hneg : p.chips - p.bet < 0
            · rw [if_pos hneg]
            · rw [if_neg hneg]
              exact h
          · rw [if_neg hlt]
            exact h
    · rw [if_neg hb]
      exact h
  · intro amount q hq he
    unfold placeBetHandler
    rw [hq]
    dsimp only
    by_cases hph : room.gameState = GameState.betting
    · rw [if_pos hph, if_pos he]
    · rw [if_neg hph]
  · intro q ps1 d1 hq he hda
    have hs := dealToAll_skip pid q (by simp [he]) room.players room.deck ps1 d1 hq hda
    simpa [he] using hs
  · intro q hq
    refine ⟨{ id := pid, name := q.name, chips := q.chips }, ?_, rfl, rfl, rfl⟩
    unfold fullRanking
    rw [mem_sortByChipsDesc]
    exact List.mem_map_of_mem _ (findPlayer_mem room.players pid q hq)

/-- A concrete player about to lose more than they own: 50 chips, bet
100, busted at 25. -/
def c9Player : Player :=
  { name := "gus", chips := 50, bet := 100, hand := [cardHK, cardD9, cardC5, cardSA],
    score := 25, status := "bust", isEliminated := false, result := "" }

/-- Witness for C9: the busted loss takes the chips to -50 and sets the
elimination flag. -/
theorem c9_elimination_permanent_witness :
    0 ≤ c9Player.chips ∧ (resolvePlayer 20 c9Player).chips = -50 ∧
    (resolvePlayer 20 c9Player).isEliminated = true :=
  ⟨by decide, by decide,
   (c9_elimination_permanent 20 c9Player c1Room "p1").1 (by decide) (by decide)⟩

/-- Assigning an absent key appends the entry at the end (JS object
insertion order). -/
theorem assignPlayer_eq_append (ps : Players) (pid : String) (p : Player)
    (h : findPlayer ps pid = none) :
    assignPlayer ps pid p = ps ++ [(pid, p)] := by
  induction ps with
  | nil => rfl
  | cons hd tl ih =>
    obtain ⟨i, q⟩ := hd
    rw [findPlayer] at h
    by_cases hip : i = pid
    · rw [if_pos hip] at h
      exact absurd h (by simp)
    · rw [if_neg hip] at h
      rw [assignPlayer, if_neg hip, ih h, List.cons_append]

/-- Looking up a key that is absent from the prefix finds the appended
entry. -/
theorem findPlayer_append_right (ps : Players) (pid : String) (p : Player)
    (h : findPlayer ps pid = none) :
    findPlayer (ps ++ [(pid, p)]) pid = some p := by
  induction ps with
  | nil => simp [findPlayer]
  | cons hd tl ih =>
    obtain ⟨i, q⟩ := hd
    rw [findPlayer] at h
    by_cases hip : i = pid
    · rw [if_pos hip] at h
      exact absurd h (by simp)
    · rw [if_neg hip] at h
      rw [List.cons_append, findPlayer, if_neg hip]
      exact ih h

/-- When every acceptable bet still leaves the allPlayersBetted aggregate
false, a placeBet can never change the phase: every rejection returns the
room unchanged and an acceptance stores the bet without dealing. -/
theorem placeBet_gameState_of_blocked (room : Room) (pid2 : String) (amount : String)
    (hblock : ∀ q2 v, findPlayer room.players pid2 = some q2 →
      jsParseInt amount = some v → 0 < v →
      allPlayersBetted
        (assignPlayer room.players pid2 { q2 with bet := v, status := "betted" }) = false) :
    ∀ room2, placeBetHandler room pid2 amount = some room2 →
      room2.gameState = room.gameState := by
  intro room2 h
  unfold placeBetHandler at h
  cases hf : findPlayer room.players pid2 with
  | none =>
    rw [hf] at h
    injection h with h
    subst h
    rfl
  | some q2 =>
    rw [hf] at h
    dsimp only at h
    by_cases hph : room.gameState = GameState.betting
    · rw [if_pos hph] at h
      by_cases he : q2.isEliminated
      · rw [if_pos he] at h
        injection h with h
        subst h
        rfl
      · rw [if_neg he] at h
        cases hv : jsParseInt amount with
        | none =>
          rw [hv] at h
          injection h with h
          subst h
          rfl
        | some v =>
          rw [hv] at h
          dsimp only at h
          by_cases hvp : 0 < v
          · rw [if_pos hvp, if_neg (by simp [hblock q2 v hf hv hvp])] at h
            injection h with h
            subst h
            rfl
          · rw [if_neg hvp] at h
            injection h with h
            subst h
            rfl
    · rw [if_neg hph] at h
      injection h with h
      subst h
      rfl

/-- A successful dealCards from the betting phase takes its player map
exactly from the dealing loop. -/
theorem dealCards_players (room room1 : Room)
    (h : dealCards room = some room1)
    (hphase : room.gameState = GameState.betting) :
    ∃ d1, dealToAll room.players room.deck = some (room1.players, d1) := by
  unfold dealCards at h
  rw [if_pos hphase] at h
  cases hda : dealToAll room.players room.deck with
  | none =>
    rw [hda] at h
    exact absurd h (by simp)
  | some pr =>
    obtain ⟨ps1, d1⟩ := pr
    rw [hda] at h
    dsimp only at h
    cases hg1 : d1.getLast? with
    | none =>
      rw [hg1] at h
      exact absurd h (by simp)
    | some c1 =>
      rw [hg1] at h
      dsimp only at h
      cases hg2 : d1.dropLast.getLast? with
      | none =>
        rw [hg2] at h
        exact absurd h (by simp)
      | some c2 =>
        rw [hg2] at h
        dsimp only at h
        injection h with h
        have hpl : room1.players = ps1 := by
          rw [← h]
          rfl
        rw [hpl]
        exact ⟨d1, rfl⟩

/-- C10: joinRoom checks only that the room exists and has fewer than 5
players — there is no phase guard, so a join succeeds in betting, action,
dealer or result exactly as in waiting — and the new player starts with
1000 chips, bet 0 and status waiting.  Consequences during the betting
phase: the joiner (neither betted nor eliminated) falsifies the
allPlayersBetted aggregate, so no bet by any other player can advance
the phase; when the bet deadline fires, the joiner — whose status is
waiting, not betting — is not auto-betted, receives no cards, and is set
to stand with bet 0, an empty hand and untouched chips. -/
theorem c10_join_any_phase (room : Room) (pid pname : String)
    (hnew : findPlayer room.players pid = none)
    (hcap : room.players.length < 5) :
    joinRoomHandler room pid pname =
      ({ room with players := room.players ++ [(pid, createPlayer pname)] }, true) ∧
    createPlayer pname = { name := pname, chips := 1000, bet := 0, hand := [],
                           score := 0, status := "waiting", isEliminated := false,
                           result := "" } ∧
    allPlayersBetted (room.players ++ [(pid, createPlayer pname)]) = false ∧
    (∀ pid2 amount room2, pid2 ≠ pid →
      placeBetHandler { room with players := room.players ++ [(pid, createPlayer pname)] }
        pid2 amount = some room2 →
      room2.gameState = room.gameState) ∧
    (room.gameState = GameState.betting →
      ∀ room3,
        betTimeoutFire
          { room with players := room.players ++ [(pid, createPlayer pname)] } =
          some room3 →
        ∃ q, findPlayer room3.players pid = some q ∧ q.status = "stand" ∧
          q.bet = 0 ∧ q.hand = [] ∧ q.chips = 1000) := by
  have hjoin : findPlayer (room.players ++ [(pid, createPlayer pname)]) pid =
      some (createPlayer pname) := findPlayer_append_right _ _ _ hnew
  have hstat : (createPlayer pname).status ≠ "betted" := by
    change "waiting" ≠ "betted"
    decide
  refine ⟨?_, rfl, ?_, ?_, ?_⟩
  · unfold joinRoomHandler
    rw [if_neg (by omega), assignPlayer_eq_append _ _ _ hnew]
  · exact allPlayersBetted_false_of_find _ pid (createPlayer pname) hjoin hstat rfl
  · intro pid2 amount room2 hne h
    have hpb := placeBet_gameState_of_blocked
      { room with players := room.players ++ [(pid, createPlayer pname)] }
      pid2 amount ?_ room2 h
    · exact hpb
    · intro q2 v hq2 hv hvp
      refine allPlayersBetted_false_of_find _ pid (createPlayer pname) ?_ hstat rfl
      rw [findPlayer_assign_other _ pid2 pid _ (Ne.symm hne)]
      exact hjoin
  · intro hph room3 h
    unfold betTimeoutFire at h
    rw [if_pos (by exact hph)] at h
    dsimp only at h
    obtain ⟨d1, hda⟩ := dealCards_players _ room3 h (by exact hph)
    dsimp only at hda
    have hadj : betTimeoutAdjust (createPlayer pname) = createPlayer pname := by
      unfold betTimeoutAdjust
      rw [if_neg (by change ¬(("waiting" == "betting") = true); decide)]
    have hmap : findPlayer
        ((room.players ++ [(pid, createPlayer pname)]).map (fun ip =>
          (ip.1, betTimeoutAdjust ip.2))) pid = some (createPlayer pname) := by
      rw [findPlayer_map, hjoin]
      simp [hadj]
    have hsk : ¬(0 < (createPlayer pname).bet ∧
        (createPlayer pname).isEliminated = false) := by
      intro hc
      exact absurd hc.1 (by change ¬((0 : Int) < 0); decide)
    have hs := dealToAll_skip pid (createPlayer pname) hsk _ _ _ _ hmap hda
    rw [if_pos (show (createPlayer pname).isEliminated = false from rfl)] at hs
    exact ⟨{ createPlayer pname with status := "stand" }, hs, rfl, rfl, rfl, rfl⟩

/-- Witness for C10 on the concrete two-player betting room: a third
player joins mid-betting and their waiting status falsifies the
aggregate. -/
theorem c10_join_any_phase_witness :
    findPlayer c6Room.players "p3" = none ∧
    joinRoomHandler c6Room "p3" "heidi" =
      ({ c6Room with players := c6Room.players ++ [("p3", createPlayer "heidi")] }, true) ∧
    allPlayersBetted (c6Room.players ++ [("p3", createPlayer "heidi")]) = false :=
  ⟨by decide,
   (c10_join_any_phase c6Room "p3" "heidi" (by decide) (by decide)).1,
   (c10_join_any_phase c6Room "p3" "heidi" (by decide) (by decide)).2.2.1⟩

end Blackjack
